import Mathlib

/-!
Verification of the sandboxed JavaScript execution engine (`jsExecutor`):
code normalizer (`cleanupCode`), harness builder, error classifier,
sync-over-async bridge (`SyncResponse`), capability-set and timeout wiring.
Each definition is a shallow embedding of the corresponding TypeScript
source; theorems settle the specification's claims about them.
-/

namespace DvtBun

set_option maxRecDepth 100000

/-- The JavaScript `\s` character class (ECMAScript WhiteSpace ∪ LineTerminator),
which is also the set removed by `String.prototype.trim`. -/
def isJsWs (c : Char) : Bool :=
  let n := c.toNat
  (9 ≤ n && n ≤ 13) || n = 32 || n = 160 || n = 5760 ||
  (8192 ≤ n && n ≤ 8202) || n = 8232 || n = 8233 || n = 8239 ||
  n = 8287 || n = 12288 || n = 65279

/-- The JavaScript `\w` character class: `[A-Za-z0-9_]`. -/
def isWordChar (c : Char) : Bool :=
  (('A' ≤ c && c ≤ 'Z') || ('a' ≤ c && c ≤ 'z') || ('0' ≤ c && c ≤ '9') || c = '_')

/-- Regular expressions over characters, with character classes given by a
Boolean predicate; the shapes used by `cleanupCode`'s `endExportPatterns`. -/
inductive Rx where
  | emp : Rx
  | eps : Rx
  | cls : (Char → Bool) → Rx
  | cat : Rx → Rx → Rx
  | alt : Rx → Rx → Rx
  | star : Rx → Rx

/-- Does the regex accept the empty string? -/
def nullable : Rx → Bool
  | .emp => false
  | .eps => true
  | .cls _ => false
  | .cat a b => nullable a && nullable b
  | .alt a b => nullable a || nullable b
  | .star _ => true

/-- Smart concatenation (simplifying `emp` and `eps`), used by `deriv`. -/
def catS (a b : Rx) : Rx :=
  match a, b with
  | .emp, _ => .emp
  | _, .emp => .emp
  | .eps, b => b
  | a, .eps => a
  | a, b => .cat a b

/-- Smart alternation (simplifying `emp`), used by `deriv`. -/
def altS (a b : Rx) : Rx :=
  match a, b with
  | .emp, b => b
  | a, .emp => a
  | a, b => .alt a b

/-- Brzozowski derivative of a regex by one character. -/
def deriv (r : Rx) (c : Char) : Rx :=
  match r with
  | .emp => .emp
  | .eps => .emp
  | .cls p => if p c then .eps else .emp
  | .cat a b => if nullable a then altS (catS (deriv a c) b) (deriv b c) else catS (deriv a c) b
  | .alt a b => altS (deriv a c) (deriv b c)
  | .star a => catS (deriv a c) (.star a)

/-- Regex matching of a whole character list, by iterated derivatives. -/
def matchR (r : Rx) : List Char → Bool
  | [] => nullable r
  | c :: cs => matchR (deriv r c) cs

/-- Character-class regex for a literal character. -/
def chCl (c : Char) : Rx := .cls (fun x => x == c)

/-- Literal-string regex. -/
def strR (s : String) : Rx := s.data.foldr (fun c r => .cat (chCl c) r) .eps

/-- `r+`. -/
def plusR (r : Rx) : Rx := .cat r (.star r)

/-- `r?`. -/
def optR (r : Rx) : Rx := .alt r .eps

/-- `\s` as a regex class. -/
def wsR : Rx := .cls isJsWs

/-- `\s*`. -/
def wsStar : Rx := .star wsR

/-- `\w` as a regex class. -/
def wordR : Rx := .cls isWordChar

/-- `[\w\s,]` (the class inside the third export pattern). -/
def wscComma : Rx := .cls (fun c => isWordChar c || isJsWs c || c == ',')

/-- `['"]` (quote class of the `export * from` pattern). -/
def quoteCl : Rx := .cls (fun c => c == Char.ofNat 39 || c == Char.ofNat 34)

/-- `/\s*;?\s*$/` — the trailing-semicolon-and-whitespace stripper of `cleanupCode`. -/
def rxSemi : Rx := .cat wsStar (.cat (optR (chCl ';')) wsStar)

/-- `/\s*export\s*\{\s*\w+\s*as\s*default\s*\}$/`. -/
def rxP1 : Rx :=
  .cat wsStar (.cat (strR "export") (.cat wsStar (.cat (chCl (Char.ofNat 123))
    (.cat wsStar (.cat (plusR wordR) (.cat wsStar (.cat (strR "as")
      (.cat wsStar (.cat (strR "default") (.cat wsStar (chCl (Char.ofNat 125))))))))))))

/-- `/\s*export\s*default\s+\w+$/`. -/
def rxP2 : Rx :=
  .cat wsStar (.cat (strR "export") (.cat wsStar (.cat (strR "default")
    (.cat (plusR wsR) (plusR wordR)))))

/-- `/\s*export\s*\{\s*[\w\s,]+\s*\}$/`. -/
def rxP3 : Rx :=
  .cat wsStar (.cat (strR "export") (.cat wsStar (.cat (chCl (Char.ofNat 123))
    (.cat wsStar (.cat (plusR wscComma) (.cat wsStar (chCl (Char.ofNat 125))))))))

/-- `/\s*export\s*\*\s*from\s*['"]\w+['"]$/`. -/
def rxP4 : Rx :=
  .cat wsStar (.cat (strR "export") (.cat wsStar (.cat (chCl '*')
    (.cat wsStar (.cat (strR "from") (.cat wsStar (.cat quoteCl
      (.cat (plusR wordR) quoteCl))))))))

/-- `/\s*module\.exports\s*=\s*\w+$/`. -/
def rxP5 : Rx :=
  .cat wsStar (.cat (strR "module.exports") (.cat wsStar (.cat (chCl '=')
    (.cat wsStar (plusR wordR)))))

/-- The `endExportPatterns` array of `cleanupCode`, in source order. -/
def endExportPatterns : List Rx := [rxP1, rxP2, rxP3, rxP4, rxP5]

/-- Index of the leftmost position whose suffix matches `r`
(`String.replace` with an end-anchored pattern removes exactly that suffix). -/
def tailMatchIdx (r : Rx) : List Char → Option Nat
  | [] => if matchR r [] then some 0 else none
  | c :: cs => if matchR r (c :: cs) then some 0 else (tailMatchIdx r cs).map (· + 1)

/-- `s.replace(pattern, '')` for an end-anchored pattern: remove the longest
suffix accepted by `r`, or return the list unchanged when no suffix matches. -/
def replaceEnd (r : Rx) (cs : List Char) : List Char :=
  match tailMatchIdx r cs with
  | some i => cs.take i
  | none => cs

/-- Leading-whitespace trim. -/
def trimL (cs : List Char) : List Char := cs.dropWhile isJsWs

/-- Trailing-whitespace trim. -/
def trimR (cs : List Char) : List Char := (cs.reverse.dropWhile isJsWs).reverse

/-- JavaScript `String.prototype.trim`. -/
def jsTrim (cs : List Char) : List Char := trimR (trimL cs)

/-- One `cleanedCode = cleanedCode.replace(pattern, '').trim()` step of the loop body. -/
def stripStep (cs : List Char) (r : Rx) : List Char := jsTrim (replaceEnd r cs)

/-- One full pass of the `for (const pattern of endExportPatterns)` loop. -/
def onePass (cs : List Char) : List Char := endExportPatterns.foldl stripStep cs

/-- The `do { ... } while (cleanedCode.length < previousLength && cleanedCode.length > 0)`
loop of `cleanupCode`, with an explicit iteration bound (fuel): repeat `onePass`
while it strictly shrinks a non-empty string; `none` means the fuel was
exhausted before the loop exited. -/
def cleanLoopF : Nat → List Char → Option (List Char)
  | 0, _ => none
  | fuel + 1, cs =>
    if (onePass cs).length < cs.length ∧ 0 < (onePass cs).length then
      cleanLoopF fuel (onePass cs)
    else some (onePass cs)

/-- The `do/while` loop of `cleanupCode`. Each repeated iteration requires the
previous pass to have strictly decreased the length, so `cs.length + 1`
iterations always suffice; `cleanLoop_fuel_total` proves the fallback value is
never used. -/
def cleanLoop (cs : List Char) : List Char :=
  (cleanLoopF (cs.length + 1) cs).getD cs

/-- `cleanupCode` on character lists: trim, strip one trailing `\s*;?\s*`,
then iterate the export-pattern stripping loop. -/
def cleanupList (cs : List Char) : List Char :=
  cleanLoop (replaceEnd rxSemi (jsTrim cs))

/-- `cleanupCode` (Dockerfile lines 781-813 / `jsExecutor.ts`):
removes export statements from the very end of the code. -/
def cleanupCode (s : String) : String := String.mk (cleanupList s.data)

/-- `true` iff the string's last character is a semicolon. -/
def endsWithSemi (s : String) : Bool :=
  match s.data.reverse with
  | [] => false
  | c :: _ => c == ';'

/-- `Strip x y`: `y` is obtained from `x` by removing a purely-whitespace
prefix and an arbitrary suffix; the middle is preserved verbatim. -/
def Strip (x y : List Char) : Prop :=
  ∃ p q, (∀ c ∈ p, isJsWs c = true) ∧ p ++ y ++ q = x

/-- `onlyChars P r`: every character class in `r` only accepts characters
satisfying `P` (hence every word accepted by `r` uses only such characters). -/
def onlyChars (P : Char → Bool) : Rx → Prop
  | .emp => True
  | .eps => True
  | .cls p => ∀ c, p c = true → P c = true
  | .cat a b => onlyChars P a ∧ onlyChars P b
  | .alt a b => onlyChars P a ∧ onlyChars P b
  | .star a => onlyChars P a

/-! ### Substring search (JavaScript `String.prototype.includes`) -/

/-- `containsSub hay needle`: does `needle` occur as a contiguous run in `hay`?
(JavaScript `hay.includes(needle)`.) -/
def containsSub (hay needle : List Char) : Bool :=
  if needle.isPrefixOf hay then true
  else
    match hay with
    | [] => false
    | _ :: t => containsSub t needle

/-- `hay.includes(needle)` on strings. -/
def strContains (hay needle : String) : Bool := containsSub hay.data needle.data

/-! ### Harness builder (Dockerfile lines 909-961) -/

/-- `isBundledCode` heuristic: no `'import '` and no `'export '` substring and
length strictly greater than 1000. -/
def isBundledCode (code : String) : Bool :=
  !(strContains code "import ") && !(strContains code "export ") &&
    decide (1000 < code.length)

/-- The message the generated guard throws when `functionName` is not a
callable function (with the `in bundled code` suffix in bundled mode). -/
def guardMsg (functionName : String) (bundled : Bool) : String :=
  "Function \"" ++ functionName ++ "\" is not defined or not a function" ++
    (if bundled then " in bundled code" else "")

/-- The existence guard emitted by the wrapped and pass-through templates. -/
def guardPartPlain (functionName : String) : String :=
  "\n          \n          if (typeof " ++ functionName
    ++ " !== 'function') \x7b\n            throw new Error('"
    ++ guardMsg functionName false ++ "');\n          \x7d"

/-- The existence guard emitted by the bundled-code template (preceded by its
comment line; the thrown message carries the `in bundled code` suffix). -/
def guardPartBundled (functionName : String) : String :=
  "\n          \n          // For bundled code, the function should be available directly\n          if (typeof "
    ++ functionName
    ++ " !== 'function') \x7b\n            throw new Error('"
    ++ guardMsg functionName true ++ "');\n          \x7d"

/-- The invocation emitted by all three templates: spread the serialized
argument list into a call of `functionName` and yield the result. -/
def invokePart (functionName argsJson : String) : String :=
  "\n          \n          const __result__ = " ++ functionName
    ++ "(..." ++ argsJson ++ ");\n          __result__;"

/-- The rethrow-preserving `catch` block closing the wrapped template. -/
def catchPart : String :=
  "\n        \x7d catch (__error__) \x7b\n          // Re-throw the exact error that occurred during execution\n          throw __error__;\n        \x7d\n      "

/-- The bundled-code script (template literal at Dockerfile lines 920-930). -/
def tplBundled (code functionName argsJson : String) : String :=
  "\n          " ++ code ++ guardPartBundled functionName
    ++ invokePart functionName argsJson ++ "\n        "

/-- The pass-through script (template literal at Dockerfile lines 933-942). -/
def tplPassThrough (code functionName argsJson : String) : String :=
  "\n          " ++ code ++ guardPartPlain functionName
    ++ invokePart functionName argsJson ++ "\n        "

/-- The wrapped script (template literal at Dockerfile lines 946-960):
`try {` before the code, rethrowing `catch` after the invocation. -/
def tplWrapped (code functionName argsJson : String) : String :=
  "\n        try \x7b\n          " ++ code ++ guardPartPlain functionName
    ++ invokePart functionName argsJson ++ catchPart

/-- The harness builder: selects one of the three script shapes from
`skipWrapper` and the bundled-code heuristic. `argsJson` stands for
`JSON.stringify(input)`. -/
def buildWrappedCode (skipWrapper : Bool) (code functionName argsJson : String) : String :=
  if skipWrapper then
    if isBundledCode code then tplBundled code functionName argsJson
    else tplPassThrough code functionName argsJson
  else tplWrapped code functionName argsJson

/-! ### Error classification and elapsed-time annotations (lines 825-1041) -/

/-- A failure thrown by the engine: its message and the `executionTime`
property attached with `Object.assign` (absent on plain errors). -/
structure EngFail where
  msg : String
  timeAnn : Option ℚ
  deriving DecidableEq

/-- `Math.round(x * 100) / 100` — elapsed milliseconds rounded to two
decimals (JavaScript `Math.round` is floor of `x + 1/2`). -/
def jsRound2 (x : ℚ) : ℚ := ((⌊x * 100 + 1 / 2⌋ : ℤ) : ℚ) / 100

/-- JavaScript truthiness of the `executionTime` property:
`undefined` and `0` are falsy. -/
def timeTruthy : Option ℚ → Bool
  | none => false
  | some q => q != 0

/-- A validation failure re-thrown with `executionTime` attached (line 838). -/
def validationFail (m : String) (elapsed : ℚ) : EngFail :=
  ⟨m, some (jsRound2 elapsed)⟩

/-- A `vm.run` failure re-thrown with `executionTime` attached (line 986). -/
def vmFail (m : String) (elapsed : ℚ) : EngFail :=
  ⟨m, some (jsRound2 elapsed)⟩

/-- The outer `catch` for `Error` values (lines 1021-1038): propagate
unchanged when `executionTime` is truthy, otherwise classify by message
substrings and attach the outer elapsed time. -/
def outerHandle (functionName : String) (elapsed : ℚ) (e : EngFail) : EngFail :=
  if timeTruthy e.timeAnn then e
  else if strContains e.msg "timeout" then
    ⟨"Code execution timed out (max 5 seconds)", some (jsRound2 elapsed)⟩
  else if strContains e.msg "not allowed" || strContains e.msg "restricted" then
    ⟨"Code contains restricted operations", some (jsRound2 elapsed)⟩
  else if strContains e.msg "not defined" || strContains e.msg "not a function" then
    ⟨"Function \"" ++ functionName ++ "\" is not defined or not a function",
      some (jsRound2 elapsed)⟩
  else
    ⟨"Execution error: " ++ e.msg, some (jsRound2 elapsed)⟩

/-- The outer `catch` for non-`Error` values (line 1040). -/
def nonErrorFail (elapsed : ℚ) : EngFail :=
  ⟨"Unknown execution error occurred", some (jsRound2 elapsed)⟩

/-- Where a failure reaching the outer `catch` came from: a validation error
(already annotated), a `vm.run` error (already annotated), a plain `Error`
without annotation, or a non-`Error` thrown value. -/
inductive FailSource where
  | validationS (m : String) (innerElapsed : ℚ) : FailSource
  | vmS (m : String) (innerElapsed : ℚ) : FailSource
  | plainError (m : String) : FailSource
  | nonError : FailSource

/-- The failure `executeJavaScript` finally throws, for each failure source. -/
def engineFailure (functionName : String) (src : FailSource) (outerElapsed : ℚ) : EngFail :=
  match src with
  | .validationS m t1 => outerHandle functionName outerElapsed (validationFail m t1)
  | .vmS m t1 => outerHandle functionName outerElapsed (vmFail m t1)
  | .plainError m => outerHandle functionName outerElapsed ⟨m, none⟩
  | .nonError => nonErrorFail outerElapsed

/-- The inner elapsed-time measurements are non-negative
(`performance.now()` is monotone). -/
def srcElapsedNonneg : FailSource → Prop
  | .validationS _ t => 0 ≤ t
  | .vmS _ t => 0 ≤ t
  | .plainError _ => True
  | .nonError => True

/-- Is the message of the generic `RuntimeError` classification shape
(prefixed by `Execution error: `)? -/
def isRuntimeErrShaped (m : String) : Bool :=
  List.isPrefixOf "Execution error: ".data m.data

/-! ### Capability set and timeout wiring (lines 860-907, application.yml) -/

/-- The `execution.sandbox` toggles from `application.yml`. -/
structure SandboxConfig where
  allowHttp : Bool
  allowConsole : Bool
  allowTimers : Bool

/-- The binding names of the sandbox object passed to `new VM` (lines 863-905). -/
def sandboxBindingNames : List String :=
  ["fetch", "XMLHttpRequest", "console",
   "setTimeout", "clearTimeout", "setInterval", "clearInterval",
   "Promise", "URL", "URLSearchParams", "Java", "RestClient",
   "global", "document", "process"]

/-- The capability set the executor actually installs for a given
configuration: `executeJavaScript` builds the sandbox object from literals
and never consults the configuration toggles. -/
def vmSandboxNames (_cfg : SandboxConfig) : List String := sandboxBindingNames

/-- The `timeout` option passed to `new VM` (line 862): a hard-coded literal. -/
def vmTimeoutMs : Nat := 15000

/-- `application.yml` `execution.timeout: ${JS_EXECUTION_TIMEOUT:5000}`:
the environment override when present, otherwise the default 5000 ms. -/
def configExecutionTimeout (envOverride : Option Nat) : Nat :=
  envOverride.getD 5000

/-- The wall-clock timeout the engine passes to the isolate as a function of
the configured budget: `executeJavaScript` ignores the configuration and
always passes the literal 15000. -/
def vmTimeoutUsed (_configuredMs : Nat) : Nat := vmTimeoutMs

/-! ### Sync-over-async bridge (`SyncResponse`, java-bridge.ts lines 16-85) -/

/-- `maxAttempts` of `SyncResponse.toString` (line 45). -/
def maxPollAttempts : Nat := 120000

/-- The busy-poll loop of `toString` (lines 47-54): starting from attempt
counter `a`, spin while the handle is unresolved and the attempt counter is
below `maxPollAttempts`; returns the final attempt counter. -/
def spinFrom (resolvedAtA : Nat → Bool) (a : Nat) : Nat :=
  if h : a < maxPollAttempts ∧ resolvedAtA a = false then spinFrom resolvedAtA (a + 1) else a
  termination_by maxPollAttempts - a
  decreasing_by exact Nat.sub_succ_lt_self _ _ h.1

/-- One bridge handle's underlying asynchronous call, as observed by a single
coercion: the poll tick at which the promise settles (`none`: it never settles
during this coercion) and the settled outcome (response body or error). -/
structure BridgeCall where
  settleAt : Option Nat
  outcome : Except String String

/-- Is the handle's `resolved` flag set at poll tick `a`? -/
def resolvedAt (u : BridgeCall) (a : Nat) : Bool :=
  match u.settleAt with
  | some t => decide (t ≤ a)
  | none => false

/-- Lines 63-69 of `toString`: once resolved, throw the stored error if any,
else return the stored response text. -/
def settleFinish (u : BridgeCall) : Except String String :=
  match u.outcome with
  | .error e => .error e
  | .ok b => .ok b

/-- `SyncResponse.toString` (lines 40-70): result of one coercion together
with the number of busy-poll attempts it performed. An unresolved handle is
polled up to `maxPollAttempts` and then yields the empty string. -/
def toStringRun (u : BridgeCall) : Except String String × Nat :=
  if resolvedAt u 0 then (settleFinish u, 0)
  else
    let a := spinFrom (resolvedAt u) 0
    if resolvedAt u a then (settleFinish u, a) else (Except.ok "", a)

/-! ### Basic lemmas about the normalizer's building blocks -/

theorem dropWhile_length_le (p : Char → Bool) (l : List Char) :
    (l.dropWhile p).length ≤ l.length := by
  induction l with
  | nil => simp
  | cons a t ih =>
    rw [List.dropWhile_cons]
    split
    · exact Nat.le_trans ih (Nat.le_succ _)
    · simp

theorem dropWhile_eq_self_of_length (p : Char → Bool) (l : List Char)
    (h : (l.dropWhile p).length = l.length) : l.dropWhile p = l := by
  induction l with
  | nil => simp
  | cons a t _ =>
    rw [List.dropWhile_cons] at h ⊢
    split at h
    · exact absurd h (Nat.ne_of_lt (Nat.lt_succ_of_le (dropWhile_length_le p t)))
    · simp_all

theorem dropWhile_head_not (p : Char → Bool) (l : List Char) (c : Char) (t : List Char)
    (h : l.dropWhile p = c :: t) : p c = false := by
  induction l with
  | nil => simp at h
  | cons a s ih =>
    rw [List.dropWhile_cons] at h
    split at h
    · exact ih h
    · cases h
      simp_all

theorem trimL_length_le (cs : List Char) : (trimL cs).length ≤ cs.length :=
  dropWhile_length_le _ cs

theorem trimR_length_le (cs : List Char) : (trimR cs).length ≤ cs.length := by
  unfold trimR
  rw [List.length_reverse]
  exact Nat.le_trans (dropWhile_length_le _ _) (by rw [List.length_reverse])

theorem jsTrim_length_le (cs : List Char) : (jsTrim cs).length ≤ cs.length :=
  Nat.le_trans (trimR_length_le _) (trimL_length_le _)

theorem trimL_eq_self_of_length (cs : List Char)
    (h : (trimL cs).length = cs.length) : trimL cs = cs :=
  dropWhile_eq_self_of_length _ _ h

theorem trimR_eq_self_of_length (cs : List Char)
    (h : (trimR cs).length = cs.length) : trimR cs = cs := by
  unfold trimR at h ⊢
  rw [List.length_reverse] at h
  have h2 : (cs.reverse.dropWhile isJsWs).length = cs.reverse.length := by
    rw [List.length_reverse]
    exact h
  rw [dropWhile_eq_self_of_length _ _ h2, List.reverse_reverse]

theorem jsTrim_eq_self_of_length (cs : List Char)
    (h : (jsTrim cs).length = cs.length) : jsTrim cs = cs := by
  unfold jsTrim at h ⊢
  have h1 : (trimL cs).length = cs.length :=
    Nat.le_antisymm (trimL_length_le _)
      (by calc cs.length = (trimR (trimL cs)).length := h.symm
            _ ≤ (trimL cs).length := trimR_length_le _)
  rw [trimL_eq_self_of_length _ h1] at h ⊢
  exact trimR_eq_self_of_length _ h

theorem tailMatchIdx_le (r : Rx) (cs : List Char) (i : Nat)
    (h : tailMatchIdx r cs = some i) : i ≤ cs.length := by
  induction cs generalizing i with
  | nil =>
    unfold tailMatchIdx at h
    split at h <;> simp_all
  | cons c t ih =>
    unfold tailMatchIdx at h
    split at h
    · cases h
      simp
    · simp only [Option.map_eq_some'] at h
      obtain ⟨j, hj, rfl⟩ := h
      exact Nat.succ_le_succ (ih j hj)

theorem tailMatchIdx_match (r : Rx) (cs : List Char) (i : Nat)
    (h : tailMatchIdx r cs = some i) : matchR r (cs.drop i) = true := by
  induction cs generalizing i with
  | nil =>
    unfold tailMatchIdx at h
    split at h
    · cases h
      simp_all
    · simp at h
  | cons c t ih =>
    unfold tailMatchIdx at h
    split at h
    · cases h
      simp_all
    · simp only [Option.map_eq_some'] at h
      obtain ⟨j, hj, rfl⟩ := h
      simpa using ih j hj

theorem replaceEnd_append (r : Rx) (cs : List Char) :
    ∃ t, replaceEnd r cs ++ t = cs := by
  unfold replaceEnd
  split
  · exact ⟨_, List.take_append_drop _ _⟩
  · exact ⟨[], List.append_nil _⟩

theorem replaceEnd_length_le (r : Rx) (cs : List Char) :
    (replaceEnd r cs).length ≤ cs.length := by
  obtain ⟨t, ht⟩ := replaceEnd_append r cs
  calc (replaceEnd r cs).length ≤ (replaceEnd r cs).length + t.length := Nat.le_add_right _ _
    _ = cs.length := by rw [← List.length_append, ht]

theorem replaceEnd_eq_self_of_length (r : Rx) (cs : List Char)
    (h : (replaceEnd r cs).length = cs.length) : replaceEnd r cs = cs := by
  obtain ⟨t, ht⟩ := replaceEnd_append r cs
  have hlen : t.length = 0 := by
    have := congrArg List.length ht
    rw [List.length_append, h] at this
    omega
  have ht0 : t = [] := List.length_eq_zero.mp hlen
  subst ht0
  simpa using ht

theorem replaceEnd_eq_self (r : Rx) (cs : List Char)
    (h : ∀ j, j < cs.length → matchR r (cs.drop j) = false) : replaceEnd r cs = cs := by
  unfold replaceEnd
  split
  · next i hi =>
    rcases Nat.lt_or_ge i cs.length with hlt | hge
    · exact absurd (tailMatchIdx_match r cs i hi) (by simp [h i hlt])
    · have : i = cs.length := Nat.le_antisymm (tailMatchIdx_le r cs i hi) hge
      rw [this, List.take_length]
  · rfl

/-! ### The stripping loop: length bounds, fixpoints, termination -/

theorem stripStep_length_le (cs : List Char) (r : Rx) :
    (stripStep cs r).length ≤ cs.length :=
  Nat.le_trans (jsTrim_length_le _) (replaceEnd_length_le r cs)

theorem foldl_stripStep_length_le (ps : List Rx) (cs : List Char) :
    (List.foldl stripStep cs ps).length ≤ cs.length := by
  induction ps generalizing cs with
  | nil => simp
  | cons p ps ih =>
    rw [List.foldl_cons]
    exact Nat.le_trans (ih (stripStep cs p)) (stripStep_length_le cs p)

theorem stripStep_eq_self_of_length (cs : List Char) (r : Rx)
    (h : (stripStep cs r).length = cs.length) :
    replaceEnd r cs = cs ∧ jsTrim cs = cs ∧ stripStep cs r = cs := by
  have h1 : (replaceEnd r cs).length = cs.length :=
    Nat.le_antisymm (replaceEnd_length_le r cs)
      (by calc cs.length = (stripStep cs r).length := h.symm
            _ ≤ (replaceEnd r cs).length := jsTrim_length_le _)
  have h2 : replaceEnd r cs = cs := replaceEnd_eq_self_of_length r cs h1
  have h3 : jsTrim cs = cs := by
    apply jsTrim_eq_self_of_length
    have := h
    unfold stripStep at this
    rwa [h2] at this
  refine ⟨h2, h3, ?_⟩
  unfold stripStep
  rw [h2, h3]

theorem foldl_stripStep_fix (ps : List Rx) (cs : List Char)
    (h : (List.foldl stripStep cs ps).length = cs.length) :
    (∀ r ∈ ps, replaceEnd r cs = cs ∧ jsTrim cs = cs) ∧ List.foldl stripStep cs ps = cs := by
  induction ps with
  | nil => simp
  | cons p ps ih =>
    rw [List.foldl_cons] at h
    have hs : (stripStep cs p).length = cs.length :=
      Nat.le_antisymm (stripStep_length_le cs p)
        (by calc cs.length = (List.foldl stripStep (stripStep cs p) ps).length := h.symm
              _ ≤ (stripStep cs p).length := foldl_stripStep_length_le _ _)
    obtain ⟨h2, h3, h4⟩ := stripStep_eq_self_of_length cs p hs
    rw [List.foldl_cons, h4]
    rw [h4] at h
    obtain ⟨hmem, hfix⟩ := ih h
    refine ⟨?_, hfix⟩
    intro r hr
    rcases List.mem_cons.mp hr with rfl | hr
    · exact ⟨h2, h3⟩
    · exact hmem r hr

theorem foldl_stripStep_of_fix (ps : List Rx) (cs : List Char)
    (h : ∀ r ∈ ps, stripStep cs r = cs) : List.foldl stripStep cs ps = cs := by
  induction ps with
  | nil => simp
  | cons p ps ih =>
    rw [List.foldl_cons, h p (List.mem_cons_self p ps)]
    exact ih fun r hr => h r (List.mem_cons_of_mem p hr)

/-- The loop's fuel never runs out: `cs.length + 1` iterations always suffice. -/
theorem cleanLoopF_total (fuel : Nat) (cs : List Char) (hf : cs.length < fuel) :
    (cleanLoopF fuel cs).isSome := by
  induction fuel generalizing cs with
  | zero => omega
  | succ fuel ih =>
    unfold cleanLoopF
    split
    · next h => exact ih _ (by omega)
    · simp

theorem cleanLoop_eq_of_fuel (fuel : Nat) (cs : List Char) (hf : cs.length < fuel) :
    cleanLoopF fuel cs = some (cleanLoop cs) := by
  suffices hs : ∀ f1 f2 (cs : List Char), cs.length < f1 → cs.length < f2 →
      cleanLoopF f1 cs = cleanLoopF f2 cs by
    have h1 := cleanLoopF_total (cs.length + 1) cs (Nat.lt_succ_self _)
    obtain ⟨out, hout⟩ := Option.isSome_iff_exists.mp h1
    unfold cleanLoop
    rw [hs fuel (cs.length + 1) cs hf (Nat.lt_succ_self _), hout]
    rfl
  intro f1
  induction f1 with
  | zero => intro f2 cs h1 _; omega
  | succ f1 ih =>
    intro f2 cs h1 h2
    match f2 with
    | 0 => omega
    | f2 + 1 =>
      unfold cleanLoopF
      split
      · next h => exact ih f2 _ (by omega) (by omega)
      · rfl

theorem cleanLoop_of_fix (cs : List Char) (h : onePass cs = cs) : cleanLoop cs = cs := by
  unfold cleanLoop cleanLoopF
  simp only [h]
  rw [if_neg (by omega)]
  rfl

/-- The output of `cleanLoop` is empty, or is a simultaneous fixpoint of `jsTrim`
and of every end-export pattern removal. -/
theorem cleanLoop_spec (cs : List Char) :
    cleanLoop cs = [] ∨
      (jsTrim (cleanLoop cs) = cleanLoop cs ∧
        ∀ r ∈ endExportPatterns, replaceEnd r (cleanLoop cs) = cleanLoop cs) := by
  suffices hs : ∀ fuel (cs : List Char), cs.length < fuel →
      ∀ out, cleanLoopF fuel cs = some out →
        out = [] ∨ (jsTrim out = out ∧ ∀ r ∈ endExportPatterns, replaceEnd r out = out) by
    exact hs (cs.length + 1) cs (Nat.lt_succ_self _) (cleanLoop cs)
      (cleanLoop_eq_of_fuel _ _ (Nat.lt_succ_self _))
  intro fuel
  induction fuel with
  | zero => intro cs h; omega
  | succ fuel ih =>
    intro cs hlen out hout
    unfold cleanLoopF at hout
    split at hout
    · next h => exact ih _ (by omega) out hout
    · next h =>
      have hout2 : onePass cs = out := by
        injection hout
      rcases Nat.eq_zero_or_pos (onePass cs).length with hz | hpos
      · left
        rw [← hout2]
        exact List.length_eq_zero.mp hz
      · have hge : cs.length ≤ (onePass cs).length := by
          rcases Nat.lt_or_ge (onePass cs).length cs.length with hlt | hge
          · exact absurd ⟨hlt, hpos⟩ h
          · exact hge
        have heq : (onePass cs).length = cs.length :=
          Nat.le_antisymm (foldl_stripStep_length_le _ _) hge
        obtain ⟨hmem, hfix⟩ := foldl_stripStep_fix endExportPatterns cs heq
        right
        have hcs : out = cs := by rw [← hout2]; exact hfix
        subst hcs
        exact ⟨(hmem rxP1 (by simp [endExportPatterns])).2, fun r hr => (hmem r hr).1⟩

/-! ### The normalizer only removes a whitespace prefix and some suffix -/

theorem Strip.refl (x : List Char) : Strip x x :=
  ⟨[], [], by simp, by simp⟩

theorem Strip.trans {x y z : List Char} (h1 : Strip x y) (h2 : Strip y z) : Strip x z := by
  obtain ⟨p1, q1, hp1, he1⟩ := h1
  obtain ⟨p2, q2, hp2, he2⟩ := h2
  refine ⟨p1 ++ p2, q2 ++ q1, ?_, ?_⟩
  · intro c hc
    rcases List.mem_append.mp hc with hc | hc
    · exact hp1 c hc
    · exact hp2 c hc
  · rw [← he1, ← he2]
    simp

theorem strip_trimL (cs : List Char) : Strip cs (trimL cs) :=
  ⟨cs.takeWhile isJsWs, [], fun c hc => List.mem_takeWhile_imp hc,
    by simp [trimL, List.takeWhile_append_dropWhile]⟩

theorem strip_trimR (cs : List Char) : Strip cs (trimR cs) := by
  refine ⟨[], (cs.reverse.takeWhile isJsWs).reverse, by simp, ?_⟩
  simp only [List.nil_append, trimR]
  rw [← List.reverse_append, List.takeWhile_append_dropWhile, List.reverse_reverse]

theorem strip_jsTrim (cs : List Char) : Strip cs (jsTrim cs) :=
  (strip_trimL cs).trans (strip_trimR (trimL cs))

theorem strip_replaceEnd (r : Rx) (cs : List Char) : Strip cs (replaceEnd r cs) := by
  obtain ⟨t, ht⟩ := replaceEnd_append r cs
  exact ⟨[], t, by simp, by simpa using ht⟩

theorem strip_stripStep (cs : List Char) (r : Rx) : Strip cs (stripStep cs r) :=
  (strip_replaceEnd r cs).trans (strip_jsTrim (replaceEnd r cs))

theorem strip_foldl (ps : List Rx) (cs : List Char) :
    Strip cs (List.foldl stripStep cs ps) := by
  induction ps generalizing cs with
  | nil => exact Strip.refl cs
  | cons p ps ih =>
    rw [List.foldl_cons]
    exact (strip_stripStep cs p).trans (ih (stripStep cs p))

theorem strip_cleanLoop (cs : List Char) : Strip cs (cleanLoop cs) := by
  suffices hs : ∀ fuel (cs : List Char), cs.length < fuel →
      ∀ out, cleanLoopF fuel cs = some out → Strip cs out by
    exact hs (cs.length + 1) cs (Nat.lt_succ_self _) (cleanLoop cs)
      (cleanLoop_eq_of_fuel _ _ (Nat.lt_succ_self _))
  intro fuel
  induction fuel with
  | zero => intro cs h; omega
  | succ fuel ih =>
    intro cs hlen out hout
    unfold cleanLoopF at hout
    split at hout
    · next h =>
      refine (strip_foldl endExportPatterns cs).trans (ih _ ?_ out hout)
      have hx : (onePass cs).length = (List.foldl stripStep cs endExportPatterns).length := rfl
      omega
    · next h =>
      have : onePass cs = out := by injection hout
      rw [← this]
      exact strip_foldl endExportPatterns cs

theorem strip_cleanupList (cs : List Char) : Strip cs (cleanupList cs) :=
  ((strip_jsTrim cs).trans (strip_replaceEnd rxSemi (jsTrim cs))).trans
    (strip_cleanLoop (replaceEnd rxSemi (jsTrim cs)))

/-! ### Character-content facts about the semicolon pattern -/

theorem onlyChars_catS {P : Char → Bool} {a b : Rx}
    (ha : onlyChars P a) (hb : onlyChars P b) : onlyChars P (catS a b) := by
  cases a <;> cases b <;> simp_all [catS, onlyChars]

theorem onlyChars_altS {P : Char → Bool} {a b : Rx}
    (ha : onlyChars P a) (hb : onlyChars P b) : onlyChars P (altS a b) := by
  cases a <;> cases b <;> simp_all [altS, onlyChars]

theorem onlyChars_deriv {P : Char → Bool} {r : Rx} (h : onlyChars P r) (c : Char) :
    onlyChars P (deriv r c) := by
  induction r with
  | emp => trivial
  | eps => trivial
  | cls p =>
    unfold deriv
    split <;> trivial
  | cat a b iha ihb =>
    obtain ⟨ha, hb⟩ := h
    unfold deriv
    split
    · exact onlyChars_altS (onlyChars_catS (iha ha) hb) (ihb hb)
    · exact onlyChars_catS (iha ha) hb
  | alt a b iha ihb =>
    obtain ⟨ha, hb⟩ := h
    exact onlyChars_altS (iha ha) (ihb hb)
  | star a iha =>
    exact onlyChars_catS (iha h) h

theorem catS_emp_left (b : Rx) : catS .emp b = .emp := by
  cases b <;> rfl

theorem altS_emp_both : altS .emp .emp = .emp := rfl

theorem deriv_emp_of_onlyChars {P : Char → Bool} {r : Rx} (h : onlyChars P r)
    {c : Char} (hc : P c = false) : deriv r c = .emp := by
  induction r with
  | emp => rfl
  | eps => rfl
  | cls p =>
    unfold deriv
    rw [if_neg]
    intro hpc
    rw [h c hpc] at hc
    exact Bool.noConfusion hc
  | cat a b iha ihb =>
    obtain ⟨ha, hb⟩ := h
    unfold deriv
    rw [iha ha, ihb hb, catS_emp_left]
    split <;> rfl
  | alt a b iha ihb =>
    obtain ⟨ha, hb⟩ := h
    unfold deriv
    rw [iha ha, ihb hb]
    rfl
  | star a iha =>
    unfold deriv
    rw [iha h, catS_emp_left]

theorem matchR_emp (cs : List Char) : matchR .emp cs = false := by
  induction cs with
  | nil => rfl
  | cons c cs ih => simpa [matchR, deriv] using ih

theorem matchR_onlyChars {P : Char → Bool} (cs : List Char) :
    ∀ {r : Rx}, onlyChars P r → matchR r cs = true → ∀ c ∈ cs, P c = true := by
  induction cs with
  | nil => intro r _ _ c hc; simp at hc
  | cons a cs ih =>
    intro r hr hm c hc
    have hPa : P a = true := by
      by_contra hPa
      have hPa2 : P a = false := Bool.eq_false_iff.mpr hPa
      rw [show matchR r (a :: cs) = matchR (deriv r a) cs from rfl,
        deriv_emp_of_onlyChars hr hPa2, matchR_emp] at hm
      exact Bool.false_ne_true hm
    rcases List.mem_cons.mp hc with rfl | hc
    · exact hPa
    · exact ih (onlyChars_deriv hr a) hm c hc

/-- Every character class of the `\s*;?\s*` pattern accepts only whitespace
or the semicolon. -/
theorem onlyChars_rxSemi : onlyChars (fun c => isJsWs c || c == ';') rxSemi := by
  refine ⟨?_, ⟨⟨?_, trivial⟩, ?_⟩⟩ <;> intro c hc <;> simp_all

/-! ### Idempotence of the normalizer away from trailing semicolons -/

theorem reverse_head_not_ws (cs : List Char) (h : jsTrim cs = cs) (c : Char) (t : List Char)
    (hct : cs.reverse = c :: t) : isJsWs c = false := by
  have h2 : cs.reverse = (trimL cs).reverse.dropWhile isJsWs := by
    conv_lhs => rw [← h]
    unfold jsTrim trimR
    rw [List.reverse_reverse]
  rw [h2] at hct
  exact dropWhile_head_not _ _ _ _ hct

theorem drop_reverse_take (l : List Char) (j : Nat) :
    (l.drop j).reverse = l.reverse.take (l.length - j) := by
  induction l generalizing j with
  | nil => simp
  | cons a t ih =>
    cases j with
    | zero => simp
    | succ j =>
      rw [List.drop_succ_cons, ih j]
      rw [List.reverse_cons, List.length_cons]
      have he : t.length + 1 - (j + 1) = t.length - j := by omega
      rw [he, List.take_append_eq_append_take]
      have hz : t.length - j - t.reverse.length = 0 := by
        rw [List.length_reverse]
        omega
      rw [hz]
      simp

theorem drop_rev_head (cs : List Char) (j : Nat) (c : Char) (t : List Char)
    (hct : cs.reverse = c :: t) (hj : j < cs.length) :
    ∃ t2, (cs.drop j).reverse = c :: t2 := by
  rw [drop_reverse_take, hct]
  have he : cs.length - j = (cs.length - j - 1) + 1 := by omega
  rw [he, List.take_succ_cons]
  exact ⟨_, rfl⟩

theorem cleanupList_empty : cleanupList [] = [] := by decide

/-- List-level idempotence: if the normalizer's output does not end with a
semicolon, normalizing it again is a no-op. -/
theorem cleanupList_idem (cs : List Char)
    (hsem : (cleanupList cs).reverse.head? ≠ some ';') :
    cleanupList (cleanupList cs) = cleanupList cs := by
  have hO : cleanupList cs = cleanLoop (replaceEnd rxSemi (jsTrim cs)) := rfl
  rcases cleanLoop_spec (replaceEnd rxSemi (jsTrim cs)) with hE | ⟨htrim, hfix⟩
  · rw [hO, hE]
    exact cleanupList_empty
  · rw [← hO] at htrim hfix
    have hSfix : replaceEnd rxSemi (cleanupList cs) = cleanupList cs := by
      apply replaceEnd_eq_self
      intro j hj
      by_contra hm
      have hm2 : matchR rxSemi ((cleanupList cs).drop j) = true := by
        simpa using hm
      have hall := matchR_onlyChars ((cleanupList cs).drop j) onlyChars_rxSemi hm2
      obtain ⟨c, t, hct⟩ : ∃ c t, (cleanupList cs).reverse = c :: t := by
        cases hOr : (cleanupList cs).reverse with
        | nil =>
          rw [List.reverse_eq_nil_iff] at hOr
          rw [hOr] at hj
          simp at hj
        | cons c t => exact ⟨c, t, rfl⟩
      have hcw : isJsWs c = false := reverse_head_not_ws _ htrim c t hct
      have hcs : (c == ';') = false := by
        rw [hct] at hsem
        simp only [List.head?_cons, ne_eq, Option.some.injEq] at hsem
        simpa using hsem
      obtain ⟨t2, ht2⟩ := drop_rev_head (cleanupList cs) j c t hct hj
      have hcm : c ∈ (cleanupList cs).drop j := by
        rw [← List.mem_reverse, ht2]
        exact List.mem_cons_self _ _
      have hP := hall c hcm
      rw [hcw, hcs] at hP
      simp at hP
    have hdef : cleanupList (cleanupList cs) =
        cleanLoop (replaceEnd rxSemi (jsTrim (cleanupList cs))) := rfl
    rw [hdef, htrim, hSfix]
    apply cleanLoop_of_fix
    apply foldl_stripStep_of_fix
    intro r hr
    unfold stripStep
    rw [hfix r hr, htrim]

/-! ### Substring-search lemmas -/

theorem isPrefixOf_self_append (n r : List Char) : List.isPrefixOf n (n ++ r) = true := by
  induction n with
  | nil => simp [List.isPrefixOf]
  | cons c n ih => simp [List.isPrefixOf, ih]

theorem containsSub_intro (hay n l r : List Char) (h : hay = l ++ n ++ r) :
    containsSub hay n = true := by
  induction l generalizing hay with
  | nil =>
    subst h
    unfold containsSub
    rw [List.nil_append, isPrefixOf_self_append]
    rfl
  | cons c l ih =>
    subst h
    unfold containsSub
    split
    · rfl
    · exact ih _ rfl

theorem strContains_intro (hay n : String) (l r : List Char)
    (h : hay.data = l ++ n.data ++ r) : strContains hay n = true :=
  containsSub_intro hay.data n.data l r h

theorem isPrefixOf_cons_ne (a b : Char) (l1 l2 : List Char) (h : (a == b) = false) :
    List.isPrefixOf (a :: l1) (b :: l2) = false := by
  simp [List.isPrefixOf, h]

theorem isRuntimeErrShaped_false_of_head (m : String) (c : Char) (rest : List Char)
    (hm : m.data = c :: rest) (hc : (('E' : Char) == c) = false) :
    isRuntimeErrShaped m = false := by
  unfold isRuntimeErrShaped
  rw [hm]
  have he : "Execution error: ".data = 'E' :: "xecution error: ".data := rfl
  rw [he]
  exact isPrefixOf_cons_ne _ _ _ _ hc

theorem guardMsg_data (f : String) (b : Bool) :
    (guardMsg f b).data =
      "Function \"".data ++ f.data ++ "\" is ".data ++ "not defined".data ++
        (" or not a function".data ++ (if b then " in bundled code" else "").data) := by
  unfold guardMsg
  have hsplit : ("\" is not defined or not a function" : String) =
      "\" is " ++ "not defined" ++ " or not a function" := by decide
  rw [hsplit]
  simp only [String.data_append, List.append_assoc]

theorem guardMsg_head (f : String) (b : Bool) :
    ∃ rest, (guardMsg f b).data = 'F' :: rest := by
  rw [guardMsg_data]
  exact ⟨_, rfl⟩

theorem guardMsg_has_notDefined (f : String) (b : Bool) :
    strContains (guardMsg f b) "not defined" = true := by
  apply strContains_intro _ _ ("Function \"".data ++ f.data ++ "\" is ".data)
    (" or not a function".data ++ (if b then " in bundled code" else "").data)
  rw [guardMsg_data]

/-! ### Busy-poll loop lemmas -/

theorem spinFrom_false (k a : Nat) (hk : maxPollAttempts - a = k) (ha : a ≤ maxPollAttempts) :
    spinFrom (fun _ => false) a = maxPollAttempts := by
  induction k generalizing a with
  | zero =>
    rw [spinFrom]
    have he : a = maxPollAttempts := by omega
    rw [dif_neg (by omega)]
    exact he
  | succ k ih =>
    rw [spinFrom]
    rw [dif_pos ⟨by omega, rfl⟩]
    exact ih (a + 1) (by omega) (by omega)

theorem spinFrom_thres (k a t : Nat) (hk : maxPollAttempts - a = k) (hat : a ≤ t)
    (ha : a ≤ maxPollAttempts) :
    spinFrom (fun b => decide (t ≤ b)) a = min t maxPollAttempts := by
  induction k generalizing a with
  | zero =>
    have he : a = maxPollAttempts := by omega
    rw [spinFrom, dif_neg (by omega)]
    omega
  | succ k ih =>
    rcases Nat.eq_or_lt_of_le hat with rfl | hlt
    · rw [spinFrom, dif_neg ?side]
      · omega
      · intro hcond
        rw [decide_eq_false_iff_not] at hcond
        exact hcond.2 (Nat.le_refl a)
    · rw [spinFrom, dif_pos ⟨by omega, by simp; omega⟩]
      exact ih (a + 1) (by omega) (by omega) (by omega)

/-! ### Coercion behaviour of a bridge handle -/

theorem toStringRun_pending (o : Except String String) :
    toStringRun ⟨none, o⟩ = (Except.ok "", maxPollAttempts) := by
  have hres : resolvedAt ⟨none, o⟩ = fun _ => false := by
    funext b
    rfl
  unfold toStringRun
  rw [hres]
  rw [if_neg (by simp)]
  rw [spinFrom_false (maxPollAttempts - 0) 0 rfl (by omega)]
  rw [if_neg (by simp)]

theorem toStringRun_settled (u : BridgeCall) (t : Nat) (hs : u.settleAt = some t)
    (ht : t ≤ maxPollAttempts) :
    toStringRun u = (settleFinish u, min t maxPollAttempts) := by
  have hres : resolvedAt u = fun b => decide (t ≤ b) := by
    funext b
    simp [resolvedAt, hs]
  unfold toStringRun
  rw [hres]
  rcases Nat.eq_zero_or_pos t with rfl | hpos
  · rw [if_pos (by simp)]
    simp
  · rw [if_neg (by simp; omega)]
    rw [spinFrom_thres (maxPollAttempts - 0) 0 t rfl (by omega) (by omega)]
    rw [if_pos (by simp; omega)]

theorem toStringRun_late (u : BridgeCall) (t : Nat) (hs : u.settleAt = some t)
    (ht : maxPollAttempts < t) :
    toStringRun u = (Except.ok "", maxPollAttempts) := by
  have hres : resolvedAt u = fun b => decide (t ≤ b) := by
    funext b
    simp [resolvedAt, hs]
  unfold toStringRun
  rw [hres]
  rw [if_neg (by simp; omega)]
  rw [spinFrom_thres (maxPollAttempts - 0) 0 t rfl (by omega) (by omega)]
  have hm : min t maxPollAttempts = maxPollAttempts := by omega
  rw [hm]
  rw [if_neg (by simp; omega)]

/-! ### Outer-handler lemmas -/

theorem outerHandle_of_truthy (f : String) (t : ℚ) (e : EngFail)
    (h : timeTruthy e.timeAnn = true) : outerHandle f t e = e := by
  unfold outerHandle
  rw [if_pos h]

theorem outerHandle_not_truthy_timeAnn (f : String) (t : ℚ) (e : EngFail)
    (h : timeTruthy e.timeAnn = false) : (outerHandle f t e).timeAnn = some (jsRound2 t) := by
  unfold outerHandle
  rw [if_neg (by simp [h])]
  split_ifs <;> rfl

theorem jsRound2_cents (x : ℚ) (hx : 0 ≤ x) :
    ∃ n : ℤ, jsRound2 x = (n : ℚ) / 100 ∧ 0 ≤ ((n : ℚ) / 100) := by
  refine ⟨⌊x * 100 + 1 / 2⌋, rfl, ?_⟩
  apply div_nonneg _ (by norm_num)
  have h0 : (0 : ℤ) ≤ ⌊x * 100 + 1 / 2⌋ := by
    rw [Int.le_floor]
    push_cast
    nlinarith
  exact_mod_cast h0

theorem fnfRestate_head (f : String) :
    ∃ rest, ("Function \"" ++ f ++ "\" is not defined or not a function").data = 'F' :: rest := by
  rw [String.data_append, String.data_append]
  exact ⟨_, rfl⟩

theorem jsRound2_intCast (k : ℤ) : jsRound2 (k : ℚ) = (k : ℚ) := by
  unfold jsRound2
  have hfl : ⌊(k : ℚ) * 100 + 1 / 2⌋ = k * 100 := by
    rw [Int.floor_eq_iff]
    constructor
    · push_cast
      linarith
    · push_cast
      linarith
  rw [hfl]
  push_cast
  field_simp

theorem outerHandle_timeout_branch (f : String) (t : ℚ) (e : EngFail)
    (h0 : timeTruthy e.timeAnn = false) (h1 : strContains e.msg "timeout" = true) :
    outerHandle f t e = ⟨"Code execution timed out (max 5 seconds)", some (jsRound2 t)⟩ := by
  unfold outerHandle
  rw [if_neg (by simp [h0]), if_pos h1]

theorem outerHandle_runtime_branch (f : String) (t : ℚ) (e : EngFail)
    (h0 : timeTruthy e.timeAnn = false)
    (h1 : strContains e.msg "timeout" = false)
    (h2 : strContains e.msg "not allowed" = false)
    (h3 : strContains e.msg "restricted" = false)
    (h4 : strContains e.msg "not defined" = false)
    (h5 : strContains e.msg "not a function" = false) :
    outerHandle f t e = ⟨"Execution error: " ++ e.msg, some (jsRound2 t)⟩ := by
  unfold outerHandle
  rw [if_neg (by simp [h0]), if_neg (by simp [h1]), if_neg (by simp [h2, h3]),
    if_neg (by simp [h4, h5])]

/-! ### Claim theorems -/

/-- C1: the harness builder emits exactly one of three script shapes:
with `skipWrapper = false` the wrapped shape (code, then the existence guard
and invocation, inside the rethrow-preserving try/catch); with
`skipWrapper = true` and the bundled-code heuristic satisfied (no `import `
or `export ` substring and length over 1000) the unwrapped bundled shape
with the same guard and invocation and no try/catch; otherwise the unwrapped
pass-through shape. -/
theorem claim_C1_harness_shapes :
    (∀ code fname args : String,
      buildWrappedCode false code fname args =
        "\n        try \x7b\n          " ++ code ++ guardPartPlain fname
          ++ invokePart fname args ++ catchPart)
    ∧ (∀ code fname args : String, isBundledCode code = true →
      buildWrappedCode true code fname args =
        "\n          " ++ code ++ guardPartBundled fname
          ++ invokePart fname args ++ "\n        ")
    ∧ (∀ code fname args : String, isBundledCode code = false →
      buildWrappedCode true code fname args =
        "\n          " ++ code ++ guardPartPlain fname
          ++ invokePart fname args ++ "\n        ")
    ∧ (∀ code : String, isBundledCode code = true ↔
        (strContains code "import " = false ∧ strContains code "export " = false ∧
          1000 < code.length))
    ∧ strContains catchPart "\x7d catch (__error__) \x7b" = true
    ∧ strContains (guardPartBundled "f" ++ invokePart "f" "[5,10]" ++ "\n        ") "catch" = false
    ∧ strContains (guardPartPlain "f" ++ invokePart "f" "[5,10]" ++ "\n        ") "catch" = false := by
  refine ⟨fun code fname args => rfl, ?_, ?_, ?_, by decide, by decide, by decide⟩
  · intro code fname args h
    simp [buildWrappedCode, h, tplBundled]
  · intro code fname args h
    simp [buildWrappedCode, h, tplPassThrough]
  · intro code
    simp only [isBundledCode, Bool.and_eq_true, Bool.not_eq_true', decide_eq_true_eq]
    tauto

/-- Witness for C1 at concrete inputs: a short code string selects the
pass-through shape, a 1001-character code string selects the bundled shape. -/
theorem claim_C1_harness_shapes_w :
    buildWrappedCode true "x" "f" "[5]" =
      "\n          " ++ "x" ++ guardPartPlain "f" ++ invokePart "f" "[5]" ++ "\n        "
    ∧ buildWrappedCode true (String.mk (List.replicate 1001 'a')) "f" "[5]" =
      "\n          " ++ String.mk (List.replicate 1001 'a') ++ guardPartBundled "f"
        ++ invokePart "f" "[5]" ++ "\n        " :=
  ⟨claim_C1_harness_shapes.2.2.1 "x" "f" "[5]" (by decide),
    claim_C1_harness_shapes.2.1 (String.mk (List.replicate 1001 'a')) "f" "[5]" (by decide)⟩

/-- C2 fails as stated: the trailing-semicolon stripper removes at most one
semicolon per run, so `cleanupCode` is not idempotent on `"a;;"`
(first run yields `"a;"`, second run yields `"a"`). -/
theorem claim_C2_not_idempotent_cex :
    cleanupCode (cleanupCode "a;;") ≠ cleanupCode "a;;" ∧
    cleanupCode "a;;" = "a;" ∧ cleanupCode "a;" = "a" := by
  refine ⟨?_, by decide, by decide⟩
  decide

/-- C2 (amended): `cleanupCode` is idempotent on every input whose normalized
output does not end with a semicolon; applied to
`"function f(){} export default f;"` it yields `"function f(){}"`. -/
theorem claim_C2_idempotent :
    (∀ s : String, endsWithSemi (cleanupCode s) = false →
      cleanupCode (cleanupCode s) = cleanupCode s)
    ∧ cleanupCode "function f()\x7b\x7d export default f;" = "function f()\x7b\x7d" := by
  refine ⟨?_, by decide⟩
  intro s h
  have hdata : (cleanupCode s).data = cleanupList s.data := rfl
  have hsem : (cleanupList s.data).reverse.head? ≠ some ';' := by
    unfold endsWithSemi at h
    rw [hdata] at h
    cases hr : (cleanupList s.data).reverse with
    | nil => simp
    | cons c t =>
      rw [hr] at h
      simp only [List.head?_cons, ne_eq, Option.some.injEq]
      intro hc
      rw [hc] at h
      simp at h
  show String.mk (cleanupList (cleanupCode s).data) = cleanupCode s
  rw [hdata, cleanupList_idem s.data hsem]
  rfl

/-- Witness for C2: the concrete normalized instance does not end with a
semicolon, and renormalizing it is a no-op. -/
theorem claim_C2_idempotent_w :
    endsWithSemi (cleanupCode "function f()\x7b\x7d export default f;") = false ∧
    cleanupCode (cleanupCode "function f()\x7b\x7d export default f;") =
      cleanupCode "function f()\x7b\x7d export default f;" :=
  ⟨by decide, claim_C2_idempotent.1 "function f()\x7b\x7d export default f;" (by decide)⟩

/-- C4 fails as stated: with `allowHttp = false` (indeed with every toggle
false) the sandbox still contains the network bindings, because
`executeJavaScript` builds the sandbox object without consulting the
configuration. -/
theorem claim_C4_capability_cex :
    "fetch" ∈ vmSandboxNames ⟨false, false, false⟩ ∧
    "XMLHttpRequest" ∈ vmSandboxNames ⟨false, false, false⟩ ∧
    "console" ∈ vmSandboxNames ⟨false, false, false⟩ ∧
    "setTimeout" ∈ vmSandboxNames ⟨false, false, false⟩ := by
  refine ⟨?_, ?_, ?_, ?_⟩ <;> decide

/-- C4 (amended): the capability set is fixed and independent of the
`execution.sandbox` toggles; network, console and timer bindings are present
for every configuration. -/
theorem claim_C4_capability_fixed :
    ∀ cfg : SandboxConfig,
      vmSandboxNames cfg = sandboxBindingNames ∧
      "fetch" ∈ vmSandboxNames cfg ∧ "XMLHttpRequest" ∈ vmSandboxNames cfg ∧
      "console" ∈ vmSandboxNames cfg ∧ "setTimeout" ∈ vmSandboxNames cfg ∧
      "setInterval" ∈ vmSandboxNames cfg :=
  fun _ => ⟨rfl, show "fetch" ∈ sandboxBindingNames by decide,
    show "XMLHttpRequest" ∈ sandboxBindingNames by decide,
    show "console" ∈ sandboxBindingNames by decide,
    show "setTimeout" ∈ sandboxBindingNames by decide,
    show "setInterval" ∈ sandboxBindingNames by decide⟩

/-- C5 fails as stated: the wall-clock timeout passed to the isolate is the
hard-coded 15000 ms, not the configured `execution.timeout` (default 5000 ms). -/
theorem claim_C5_timeout_cex :
    vmTimeoutUsed (configExecutionTimeout none) ≠ configExecutionTimeout none := by
  decide

/-- C5 (amended): for every configured budget the engine passes the fixed
15000 ms to the isolate; the configuration default is 5000 ms (overridable by
the `JS_EXECUTION_TIMEOUT` environment variable). -/
theorem claim_C5_timeout_fixed :
    (∀ cfgMs : Nat, vmTimeoutUsed cfgMs = 15000) ∧ vmTimeoutMs = 15000 ∧
    configExecutionTimeout none = 5000 ∧
    (∀ envMs : Nat, configExecutionTimeout (some envMs) = envMs) :=
  ⟨fun _ => rfl, rfl, rfl, fun _ => rfl⟩

/-- C9: the normalizer only removes a purely-whitespace prefix and some
suffix — every non-trailing occurrence of an export shape is preserved
verbatim; in particular the quoted mid-string `export default` is untouched. -/
theorem claim_C9_anchored :
    (∀ s : String, ∃ p q : List Char,
      s.data = p ++ (cleanupCode s).data ++ q ∧ ∀ c ∈ p, isJsWs c = true)
    ∧ cleanupCode "function f()\x7b return 'export default x'; \x7d" =
        "function f()\x7b return 'export default x'; \x7d" := by
  refine ⟨?_, by decide⟩
  intro s
  obtain ⟨p, q, hp, he⟩ := strip_cleanupList s.data
  exact ⟨p, q, he.symm, hp⟩

/-- C10: the normalizer's stripping loop terminates on every input within
`length + 1` iterations, because each repeated iteration strictly decreases
the length of a non-empty string. -/
theorem claim_C10_termination (cs : List Char) :
    cleanLoopF (cs.length + 1) cs = some (cleanLoop cs) :=
  cleanLoop_eq_of_fuel (cs.length + 1) cs (Nat.lt_succ_self _)

/-- C3 fails as stated in one corner: when the inner stage's rounded elapsed
time is exactly 0 (falsy), the guard error is reclassified, and a function
name containing the `timeout` marker then yields the Timeout message instead
of the FunctionNotFound one. -/
theorem claim_C3_fnf_cex :
    (engineFailure "timeout" (.vmS (guardMsg "timeout" false) 0) 3).msg =
      "Code execution timed out (max 5 seconds)" ∧
    strContains (engineFailure "timeout" (.vmS (guardMsg "timeout" false) 0) 3).msg
      "not defined" = false := by
  have h0 : jsRound2 0 = 0 := by
    have := jsRound2_intCast 0
    push_cast at this
    exact this
  have htr : timeTruthy (vmFail (guardMsg "timeout" false) 0).timeAnn = false := by
    show timeTruthy (some (jsRound2 0)) = false
    rw [h0]
    simp [timeTruthy]
  have hg : strContains (vmFail (guardMsg "timeout" false) 0).msg "timeout" = true := by
    show strContains (guardMsg "timeout" false) "timeout" = true
    decide
  have heq : engineFailure "timeout" (.vmS (guardMsg "timeout" false) 0) 3 =
      ⟨"Code execution timed out (max 5 seconds)", some (jsRound2 3)⟩ := by
    show outerHandle "timeout" 3 (vmFail (guardMsg "timeout" false) 0) = _
    exact outerHandle_timeout_branch _ _ _ htr hg
  rw [heq]
  exact ⟨rfl, by decide⟩

/-- C3 (amended): whenever the inner elapsed-time annotation is nonzero, a
guard trip propagates the FunctionNotFound message (re-stated with the
concrete function name, plus the bundled suffix in bundled mode) unchanged;
and in every case the failure is never of the RuntimeError shape (the
`Execution error: ` prefix), because the guard message always contains the
`not defined` marker. -/
theorem claim_C3_fnf_classification :
    (∀ (fname : String) (bundled : Bool) (t1 t2 : ℚ), jsRound2 t1 ≠ 0 →
      engineFailure fname (.vmS (guardMsg fname bundled) t1) t2 =
        ⟨guardMsg fname bundled, some (jsRound2 t1)⟩)
    ∧ (∀ (fname : String) (bundled : Bool) (t1 t2 : ℚ),
      isRuntimeErrShaped
        (engineFailure fname (.vmS (guardMsg fname bundled) t1) t2).msg = false) := by
  constructor
  · intro fname bundled t1 t2 hne
    show outerHandle fname t2 (vmFail (guardMsg fname bundled) t1) = _
    rw [outerHandle_of_truthy]
    · rfl
    · simp only [vmFail, timeTruthy, bne_iff_ne, ne_eq, decide_eq_true_eq]
      exact hne
  · intro fname bundled t1 t2
    show isRuntimeErrShaped
      (outerHandle fname t2 ⟨guardMsg fname bundled, some (jsRound2 t1)⟩).msg = false
    by_cases htr : timeTruthy (some (jsRound2 t1)) = true
    · rw [outerHandle_of_truthy _ _ _ htr]
      obtain ⟨rest, hrest⟩ := guardMsg_head fname bundled
      exact isRuntimeErrShaped_false_of_head _ 'F' rest hrest (by decide)
    · unfold outerHandle
      rw [if_neg htr]
      split_ifs with h1 h2 h3
      · show isRuntimeErrShaped "Code execution timed out (max 5 seconds)" = false
        decide
      · show isRuntimeErrShaped "Code contains restricted operations" = false
        decide
      · obtain ⟨rest, hrest⟩ := fnfRestate_head fname
        exact isRuntimeErrShaped_false_of_head _ 'F' rest hrest (by decide)
      · exfalso
        apply h3
        show (strContains (guardMsg fname bundled) "not defined" ||
          strContains (guardMsg fname bundled) "not a function") = true
        rw [guardMsg_has_notDefined fname bundled]
        rfl

/-- Witness for C3: a guard trip with function name `add` and a 1 ms inner
elapsed time propagates the FunctionNotFound message unchanged. -/
theorem claim_C3_fnf_classification_w :
    engineFailure "add" (.vmS (guardMsg "add" false) 1) 2 =
      ⟨guardMsg "add" false, some (jsRound2 1)⟩ :=
  claim_C3_fnf_classification.1 "add" false 1 2 (by
    have h1 := jsRound2_intCast 1
    push_cast at h1
    rw [h1]
    norm_num)

/-- C6: primitive coercion of a bridge handle returns the empty string when
the underlying call has not settled by the time the busy-poll ceiling is
exhausted; when the call resolved it returns the response body text; when it
failed it throws the stored error at the point of coercion. -/
theorem claim_C6_bridge_coercion :
    (∀ u : BridgeCall, u.settleAt = none →
      toStringRun u = (Except.ok "", maxPollAttempts))
    ∧ (∀ (u : BridgeCall) (t : Nat), u.settleAt = some t → maxPollAttempts < t →
      toStringRun u = (Except.ok "", maxPollAttempts))
    ∧ (∀ (u : BridgeCall) (t : Nat) (b : String), u.settleAt = some t →
      t ≤ maxPollAttempts → u.outcome = Except.ok b →
      toStringRun u = (Except.ok b, min t maxPollAttempts))
    ∧ (∀ (u : BridgeCall) (t : Nat) (e : String), u.settleAt = some t →
      t ≤ maxPollAttempts → u.outcome = Except.error e →
      toStringRun u = (Except.error e, min t maxPollAttempts)) := by
  refine ⟨?_, ?_, ?_, ?_⟩
  · intro u hs
    obtain ⟨sa, o⟩ := u
    cases hs
    exact toStringRun_pending o
  · intro u t hs ht
    exact toStringRun_late u t hs ht
  · intro u t b hs ht ho
    rw [toStringRun_settled u t hs ht]
    simp [settleFinish, ho]
  · intro u t e hs ht ho
    rw [toStringRun_settled u t hs ht]
    simp [settleFinish, ho]

/-- Witness for C6: a handle resolved at tick 0 with body `body` coerces to
that body with no polling; a handle failed at tick 0 throws its error. -/
theorem claim_C6_bridge_coercion_w :
    toStringRun ⟨some 0, Except.ok "body"⟩ = (Except.ok "body", min 0 maxPollAttempts) ∧
    toStringRun ⟨none, Except.ok "late"⟩ = (Except.ok "", maxPollAttempts) :=
  ⟨claim_C6_bridge_coercion.2.2.1 ⟨some 0, Except.ok "body"⟩ 0 "body" rfl
      (Nat.zero_le _) rfl,
    claim_C6_bridge_coercion.1 ⟨none, Except.ok "late"⟩ rfl⟩

/-- C7 fails as stated: a coercion that times out stores nothing, so a handle
whose call never settles performs the full `maxPollAttempts` busy-poll again
on a subsequent coercion instead of returning a cached TimedOut outcome with
no polling. -/
theorem claim_C7_terminal_cex :
    (toStringRun ⟨none, Except.ok "late"⟩).2 = maxPollAttempts ∧ maxPollAttempts ≠ 0 := by
  constructor
  · rw [toStringRun_pending]
  · decide

/-- C7 (amended): settlement to Resolved/Failed is cached — a coercion that
begins after the underlying call has settled returns the cached outcome with
zero polling attempts; but timeout is not a terminal transition: a handle
whose call never settles polls the full ceiling on every coercion. -/
theorem claim_C7_terminal_cached :
    (∀ u : BridgeCall, u.settleAt = some 0 → toStringRun u = (settleFinish u, 0))
    ∧ (∀ o : Except String String,
      toStringRun ⟨none, o⟩ = (Except.ok "", maxPollAttempts)) := by
  constructor
  · intro u hs
    rw [toStringRun_settled u 0 hs (Nat.zero_le _)]
    simp
  · intro o
    exact toStringRun_pending o

/-- Witness for C7: a handle already failed when coercion starts returns the
cached error with zero polling. -/
theorem claim_C7_terminal_cached_w :
    toStringRun ⟨some 0, Except.error "E"⟩ =
      (settleFinish ⟨some 0, Except.error "E"⟩, 0) :=
  claim_C7_terminal_cached.1 ⟨some 0, Except.error "E"⟩ rfl

/-- C8 fails as stated in one corner: an inner failure whose recorded elapsed
time rounds to exactly 0 carries a (zero) annotation, yet the outer handler
treats it as absent (JavaScript truthiness) and reclassifies it. -/
theorem claim_C8_elapsed_cex :
    engineFailure "f" (.vmS "boom" 0) 7 = ⟨"Execution error: boom", some 7⟩ ∧
    vmFail "boom" 0 = ⟨"boom", some 0⟩ ∧
    engineFailure "f" (.vmS "boom" 0) 7 ≠ vmFail "boom" 0 := by
  have h0 : jsRound2 0 = 0 := by
    have := jsRound2_intCast 0
    push_cast at this
    exact this
  have h7 : jsRound2 7 = 7 := by
    have := jsRound2_intCast 7
    push_cast at this
    exact this
  have hvm : vmFail "boom" 0 = ⟨"boom", some 0⟩ := by
    unfold vmFail
    rw [h0]
  have htr : timeTruthy (vmFail "boom" 0).timeAnn = false := by
    rw [hvm]
    simp [timeTruthy]
  have heq : engineFailure "f" (.vmS "boom" 0) 7 =
      ⟨"Execution error: boom", some 7⟩ := by
    show outerHandle "f" 7 (vmFail "boom" 0) = _
    rw [outerHandle_runtime_branch "f" 7 (vmFail "boom" 0) htr
      (by decide) (by decide) (by decide) (by decide) (by decide), h7]
    rfl
  refine ⟨heq, hvm, ?_⟩
  rw [heq, hvm]
  intro hcon
  have : ("Execution error: boom" : String) = "boom" := congrArg EngFail.msg hcon
  exact absurd this (by decide)

/-- C8 (amended): every failure path annotates the thrown failure with a
non-negative elapsed time that is an integer number of hundredths of a
millisecond; and a failure already carrying a nonzero elapsed-time annotation
is propagated unchanged by the outer handler. -/
theorem claim_C8_elapsed :
    (∀ (fname : String) (src : FailSource) (t2 : ℚ), 0 ≤ t2 → srcElapsedNonneg src →
      ∃ n : ℤ, (engineFailure fname src t2).timeAnn = some ((n : ℚ) / 100) ∧
        0 ≤ ((n : ℚ) / 100))
    ∧ (∀ (fname : String) (t2 : ℚ) (e : EngFail) (q : ℚ),
      e.timeAnn = some q → q ≠ 0 → outerHandle fname t2 e = e) := by
  constructor
  · intro fname src t2 ht2 hsrc
    cases src with
    | validationS m t1 =>
      show ∃ n : ℤ, (outerHandle fname t2 (validationFail m t1)).timeAnn = _ ∧ _
      by_cases htr : timeTruthy (validationFail m t1).timeAnn = true
      · rw [outerHandle_of_truthy _ _ _ htr]
        obtain ⟨n, hn, hpos⟩ := jsRound2_cents t1 hsrc
        exact ⟨n, by simp [validationFail, hn], hpos⟩
      · obtain ⟨n, hn, hpos⟩ := jsRound2_cents t2 ht2
        refine ⟨n, ?_, hpos⟩
        rw [outerHandle_not_truthy_timeAnn _ _ _ (Bool.eq_false_iff.mpr htr), hn]
    | vmS m t1 =>
      show ∃ n : ℤ, (outerHandle fname t2 (vmFail m t1)).timeAnn = _ ∧ _
      by_cases htr : timeTruthy (vmFail m t1).timeAnn = true
      · rw [outerHandle_of_truthy _ _ _ htr]
        obtain ⟨n, hn, hpos⟩ := jsRound2_cents t1 hsrc
        exact ⟨n, by simp [vmFail, hn], hpos⟩
      · obtain ⟨n, hn, hpos⟩ := jsRound2_cents t2 ht2
        refine ⟨n, ?_, hpos⟩
        rw [outerHandle_not_truthy_timeAnn _ _ _ (Bool.eq_false_iff.mpr htr), hn]
    | plainError m =>
      obtain ⟨n, hn, hpos⟩ := jsRound2_cents t2 ht2
      refine ⟨n, ?_, hpos⟩
      show (outerHandle fname t2 ⟨m, none⟩).timeAnn = _
      rw [outerHandle_not_truthy_timeAnn fname t2 ⟨m, none⟩ rfl, hn]
    | nonError =>
      obtain ⟨n, hn, hpos⟩ := jsRound2_cents t2 ht2
      refine ⟨n, ?_, hpos⟩
      show some (jsRound2 t2) = _
      rw [hn]
  · intro fname t2 e q hq hne
    apply outerHandle_of_truthy
    rw [hq]
    simp only [timeTruthy, bne_iff_ne, ne_eq, decide_eq_true_eq]
    exact hne

/-- Witness for C8: a runtime error from the VM stage with a 1 ms inner and
2 ms outer elapsed time carries a non-negative two-decimal annotation, and a
failure annotated with 3 ms passes through the outer handler unchanged. -/
theorem claim_C8_elapsed_w :
    (∃ n : ℤ, (engineFailure "f" (.vmS "oops" 1) 2).timeAnn = some ((n : ℚ) / 100) ∧
      0 ≤ ((n : ℚ) / 100)) ∧
    outerHandle "f" 2 ⟨"oops", some 3⟩ = ⟨"oops", some 3⟩ :=
  ⟨claim_C8_elapsed.1 "f" (.vmS "oops" 1) 2 (by norm_num)
      (show (0 : ℚ) ≤ 1 by norm_num),
    claim_C8_elapsed.2 "f" 2 ⟨"oops", some 3⟩ 3 rfl (by norm_num)⟩

end DvtBun
